import Mathlib

/- Verification of the bubbletea infrastructure-catalog launcher (`main.go`).

   Shallow embedding conventions: Go strings are modelled as lists of
   characters (`GoStr`); the ASCII whitespace characters model the whitespace
   test of `strings.TrimSpace` (every input the program handles is ASCII);
   fallible operations return `Option`; the filesystem and the external
   `terraform` tool are abstracted by explicit parameters recording the data
   read and the success of each external step. -/

abbrev GoStr := List Char

def gs (s : String) : GoStr := s.data

/-- Character test of Go `strings.TrimSpace`, restricted to ASCII. -/
def isWhite (c : Char) : Bool := c = ' ' || c = '\t' || c = '\n' || c = '\r'

def trimRightWhite (s : GoStr) : GoStr := (s.reverse.dropWhile isWhite).reverse

/-- Go `strings.TrimSpace`. -/
def goTrimSpace (s : GoStr) : GoStr := trimRightWhite (s.dropWhile isWhite)

def inCut (cut : GoStr) (c : Char) : Bool := cut.contains c

/-- Go `strings.Trim(s, cutset)`. -/
def goTrimCut (cut : GoStr) (s : GoStr) : GoStr :=
  ((s.dropWhile (inCut cut)).reverse.dropWhile (inCut cut)).reverse

/-- Go `strings.HasPrefix`. -/
def goHasPfx (p s : GoStr) : Bool := List.isPrefixOf p s

/-- Go `strings.Split` on a one-character separator (the program splits only
    on `"\n"` and `","`). -/
def goSplitChar (c : Char) : GoStr → List GoStr
  | [] => [[]]
  | a :: t =>
    match goSplitChar c t with
    | [] => [[a]]
    | h :: r => if a = c then [] :: h :: r else (a :: h) :: r

/-- Go `strings.Join`. -/
def goJoin (sep : GoStr) : List GoStr → GoStr
  | [] => []
  | [x] => x
  | x :: xs => x ++ sep ++ goJoin sep xs

/-- `indexOf` from the source: index of a label in a label list, `-1` when
    absent. -/
def indexOf (label : GoStr) (labels : List GoStr) : Int :=
  match labels.findIdx? (fun l => l = label) with
  | some i => (i : Int)
  | none => -1

/-- `cycleOption` from the source: the loop returns
    `options[(i + dir + len) % len]` for the first index `i` whose option
    equals `current`, and falls through to `options[0]` when no option
    matches.  Go's `%` on the (always non-negative here) operand is modelled
    by `Int.tmod`. -/
def cycleOption (current : GoStr) (options : List GoStr) (dir : Int) : GoStr :=
  match options.findIdx? (fun opt => opt = current) with
  | some i =>
    options.getD (((i : Int) + dir + options.length).tmod options.length).toNat []
  | none => options.headD []

/-- The claim's reading of the cycle operation: find the current value's
    index, DEFAULT TO INDEX 0 when the value is not in the list, then move by
    `dir` modulo the list length.  Kept separate from `cycleOption` (which is
    translated from the source) so the two can be compared. -/
def cycleOptionClaim (current : GoStr) (options : List GoStr) (dir : Int) : GoStr :=
  let i : Int :=
    match options.findIdx? (fun opt => opt = current) with
    | some j => (j : Int)
    | none => 0
  options.getD ((i + dir).emod (options.length : Int)).toNat []

def clusterOptions : List GoStr := [gs "cl10400", gs "cl12600k", gs "cl12900h", gs "cl13600k"]

def zoneOptions : List GoStr := [gs "standard", gs "admin", gs "dmz"]

/-- The `vm_disk_size` list-encoding loop used verbatim by both the create
    submit handler and the edit-form save handler: split on `','`, trim
    spaces and surrounding quotes from each part, re-quote, join with
    `", "` and wrap in brackets. -/
def encodeDiskSizeValue (v : GoStr) : GoStr :=
  let arr := (goSplitChar ',' v).map fun part =>
    ('\"' :: goTrimCut [ '\"' ] (goTrimSpace part)) ++ [ '\"' ]
  ('[' :: goJoin (gs ", ") arr) ++ [ ']' ]

/-- Value decoding in `buildEditFormInputs`: `strings.Trim(val, "\"[]")`. -/
def decodeEditValue (v : GoStr) : GoStr := goTrimCut (gs "\"[]") v

/-- Focus-advance arithmetic shared by `updateCreateForm` (tab / down) and
    `updateEditForm`: `(focus + 1) % len`. -/
def focusNext (n i : Nat) : Nat := (i + 1) % n

/-- Focus-retreat arithmetic shared by `updateCreateForm` (shift+tab / up)
    and `updateEditForm`: `(focus - 1 + len) % len` on Go ints, which for
    `0 ≤ i` equals `(i + n - 1) % n`. -/
def focusPrev (n i : Nat) : Nat := (i + n - 1) % n

inductive FocusOp | next | prev
deriving DecidableEq

def applyFocusOp (n : Nat) (i : Nat) : FocusOp → Nat
  | FocusOp.next => focusNext n i
  | FocusOp.prev => focusPrev n i

def applyFocusOps (n : Nat) (ops : List FocusOp) (i : Nat) : Nat :=
  ops.foldl (applyFocusOp n) i

/-- One field of a Go `time` value as used by `setDeploymentState`
    (UTC, so no offset). -/
structure GoUTCTime where
  year : Nat
  month : Nat
  day : Nat
  hour : Nat
  minute : Nat
  second : Nat

def pad2 (n : Nat) : GoStr := [Nat.digitChar (n / 10 % 10), Nat.digitChar (n % 10)]

def pad4 (n : Nat) : GoStr :=
  [Nat.digitChar (n / 1000 % 10), Nat.digitChar (n / 100 % 10),
   Nat.digitChar (n / 10 % 10), Nat.digitChar (n % 10)]

/-- `time.Now().UTC().Format(time.RFC3339)` as written by
    `setDeploymentState`: `YYYY-MM-DDTHH:MM:SSZ`. -/
def formatRFC3339UTC (t : GoUTCTime) : GoStr :=
  pad4 t.year ++ '-' :: pad2 t.month ++ '-' :: pad2 t.day ++
  'T' :: pad2 t.hour ++ ':' :: pad2 t.minute ++ ':' :: pad2 t.second ++ ['Z']

/-- Go string slicing `s[:hi]`: defined only when `hi ≤ len(s)`, a panic
    (`none`) otherwise. -/
def goStringSlice (s : GoStr) (hi : Nat) : Option GoStr :=
  if hi ≤ s.length then some (s.take hi) else none

/-- The last-action column computation of `listDeployments`:
    `st.Timestamp[:16]` when the timestamp is non-empty, `""` otherwise. -/
def listDeploymentsLastAction (ts : GoStr) : Option GoStr :=
  if ts = [] then some [] else goStringSlice ts 16

-- Basic facts about the string helpers -------------------------------------

theorem goSplitChar_ne_nil (c : Char) (s : GoStr) : goSplitChar c s ≠ [] := by
  induction s with
  | nil => simp [goSplitChar]
  | cons a t ih =>
    simp only [goSplitChar]
    rcases h : goSplitChar c t with _ | ⟨h', r⟩
    · simp
    · by_cases hac : a = c <;> simp [hac]

theorem mem_goSplitChar_not_mem (c : Char) (s : GoStr) :
    ∀ l ∈ goSplitChar c s, c ∉ l := by
  induction s with
  | nil => simp [goSplitChar]
  | cons a t ih =>
    intro l hl
    simp only [goSplitChar] at hl
    rcases h : goSplitChar c t with _ | ⟨h', r⟩
    · exact absurd h (goSplitChar_ne_nil c t)
    · have ihh : c ∉ h' := ih h' (by rw [h]; exact List.mem_cons_self _ _)
      have ihr : ∀ l ∈ r, c ∉ l := fun l hl => ih l (by rw [h]; exact List.mem_cons_of_mem _ hl)
      rw [h] at hl
      by_cases hac : a = c
      · simp [hac] at hl
        rcases hl with hl | hl | hl
        · simp [hl]
        · exact hl ▸ ihh
        · exact ihr l hl
      · simp [hac] at hl
        rcases hl with hl | hl
        · subst hl
          intro hmem
          rcases List.mem_cons.mp hmem with rfl | hmem
          · exact hac rfl
          · exact ihh hmem
        · exact ihr l hl

theorem goSplitChar_of_not_mem (c : Char) (s : GoStr) (h : c ∉ s) :
    goSplitChar c s = [s] := by
  induction s with
  | nil => simp [goSplitChar]
  | cons a t ih =>
    have hac : a ≠ c := fun hh => h (hh ▸ List.mem_cons_self _ _)
    have hct : c ∉ t := fun hh => h (List.mem_cons_of_mem _ hh)
    simp [goSplitChar, ih hct, fun hh => hac hh]

theorem goSplitChar_append_cons (c : Char) (x t : GoStr) (hx : c ∉ x) :
    goSplitChar c (x ++ c :: t) = x :: goSplitChar c t := by
  induction x with
  | nil =>
    simp only [List.nil_append, goSplitChar]
    rcases h : goSplitChar c t with _ | ⟨h', r⟩
    · exact absurd h (goSplitChar_ne_nil c t)
    · simp
  | cons a x' ih =>
    have hac : a ≠ c := fun hh => hx (hh ▸ List.mem_cons_self _ _)
    have hcx : c ∉ x' := fun hh => hx (List.mem_cons_of_mem _ hh)
    have heq := ih hcx
    rw [List.cons_append]
    simp only [goSplitChar]
    rw [heq]
    simp [fun hh => hac hh]

theorem goSplitChar_goJoin (c : Char) (xs : List GoStr) (hne : xs ≠ [])
    (h : ∀ x ∈ xs, c ∉ x) : goSplitChar c (goJoin [c] xs) = xs := by
  induction xs with
  | nil => exact absurd rfl hne
  | cons x rest ih =>
    rcases rest with _ | ⟨y, rest'⟩
    · exact goSplitChar_of_not_mem c x (h x (List.mem_cons_self _ _))
    · have hx : c ∉ x := h x (List.mem_cons_self _ _)
      have hrest : ∀ z ∈ y :: rest', c ∉ z := fun z hz => h z (List.mem_cons_of_mem _ hz)
      have hjoin : goJoin [c] (x :: y :: rest') = x ++ c :: goJoin [c] (y :: rest') := by
        simp [goJoin]
      rw [hjoin, goSplitChar_append_cons c x _ hx, ih (by simp) hrest]

-- The tfvars patch (`saveTfvars`) -------------------------------------------

/-- One key test of the `saveTfvars` inner loop:
    `strings.HasPrefix(strings.TrimSpace(line), key+" ") ||
     strings.HasPrefix(strings.TrimSpace(line), key+"=")`. -/
def lineMatches (key l : GoStr) : Bool :=
  goHasPfx (key ++ [' ']) (goTrimSpace l) || goHasPfx (key ++ ['=']) (goTrimSpace l)

/-- The replacement line `fmt.Sprintf("%s = %s", key, newval)`. -/
def declLine (key val : GoStr) : GoStr := key ++ gs " = " ++ val

/-- One step of the inner loop of `saveTfvars`.  The Go loop tests the range
    variable `line` (the ORIGINAL line), not the accumulated `lines[i]`, so
    the match target is fixed while the accumulator changes. -/
def patchLineStep (line acc : GoStr) (kv : GoStr × GoStr) : GoStr :=
  if lineMatches kv.1 line then declLine kv.1 kv.2 else acc

/-- The inner loop of `saveTfvars` over one line.  Go map iteration order is
    unspecified; the update mapping is modelled as an association list
    iterated in list order. -/
def patchLine (updates : List (GoStr × GoStr)) (line : GoStr) : GoStr :=
  updates.foldl (patchLineStep line) line

/-- `saveTfvars` minus the file I/O: split on newlines, patch each line,
    join with newlines. -/
def saveTfvarsText (input : GoStr) (updates : List (GoStr × GoStr)) : GoStr :=
  goJoin ['\n'] ((goSplitChar '\n' input).map (patchLine updates))

theorem patchFold_const (line a : GoStr) (updates : List (GoStr × GoStr))
    (h : ∀ kv ∈ updates, lineMatches kv.1 line = false) :
    updates.foldl (patchLineStep line) a = a := by
  induction updates generalizing a with
  | nil => rfl
  | cons kv rest ih =>
    have hkv := h kv (List.mem_cons_self _ _)
    simp only [List.foldl_cons, patchLineStep, hkv]
    exact ih a (fun kv' h' => h kv' (List.mem_cons_of_mem _ h'))

theorem patchFold_init_irrel (line : GoStr) (updates : List (GoStr × GoStr))
    (h : ∃ kv ∈ updates, lineMatches kv.1 line = true) (a b : GoStr) :
    updates.foldl (patchLineStep line) a = updates.foldl (patchLineStep line) b := by
  induction updates generalizing a b with
  | nil => simp at h
  | cons kv rest ih =>
    by_cases hkv : lineMatches kv.1 line = true
    · simp only [List.foldl_cons, patchLineStep, hkv, if_true]
    · rcases h with ⟨kv', hmem, hm⟩
      rcases List.mem_cons.mp hmem with rfl | hmem'
      · exact absurd hm hkv
      · simp only [List.foldl_cons, patchLineStep, hkv, if_neg]
        exact ih ⟨kv', hmem', hm⟩ a b

theorem patchFold_exists_decl (line : GoStr) (updates : List (GoStr × GoStr))
    (h : ∃ kv ∈ updates, lineMatches kv.1 line = true) (a : GoStr) :
    ∃ kv ∈ updates, lineMatches kv.1 line = true ∧
      updates.foldl (patchLineStep line) a = declLine kv.1 kv.2 := by
  induction updates generalizing a with
  | nil => simp at h
  | cons kv rest ih =>
    by_cases hrest : ∃ kv' ∈ rest, lineMatches kv'.1 line = true
    · rcases ih hrest (patchLineStep line a kv) with ⟨kv', hmem, hm, heq⟩
      exact ⟨kv', List.mem_cons_of_mem _ hmem, hm, heq⟩
    · have hall : ∀ kv' ∈ rest, lineMatches kv'.1 line = false := by
        intro kv' h'
        by_contra hb
        exact hrest ⟨kv', h', Bool.of_not_eq_false hb⟩
      rcases h with ⟨kv0, hmem0, hm0⟩
      rcases List.mem_cons.mp hmem0 with rfl | hmem0'
      · refine ⟨kv0, List.mem_cons_self _ _, hm0, ?_⟩
        simp only [List.foldl_cons, patchLineStep, hm0, if_true]
        exact patchFold_const line _ rest hall
      · exact absurd (hall kv0 hmem0') (by simp [hm0])

theorem patchFold_target_swap (t₁ t₂ : GoStr) (updates : List (GoStr × GoStr))
    (h : ∀ kv ∈ updates, lineMatches kv.1 t₁ = lineMatches kv.1 t₂) (a : GoStr) :
    updates.foldl (patchLineStep t₁) a = updates.foldl (patchLineStep t₂) a := by
  induction updates generalizing a with
  | nil => rfl
  | cons kv rest ih =>
    have hkv := h kv (List.mem_cons_self _ _)
    simp only [List.foldl_cons, patchLineStep, hkv]
    exact ih (fun kv' h' => h kv' (List.mem_cons_of_mem _ h')) _

theorem patchFold_skip (line a : GoStr) (pre post : List (GoStr × GoStr))
    (kv : GoStr × GoStr) (h : lineMatches kv.1 line = false) :
    (pre ++ kv :: post).foldl (patchLineStep line) a =
      (pre ++ post).foldl (patchLineStep line) a := by
  rw [List.foldl_append, List.foldl_append, List.foldl_cons]
  simp only [patchLineStep, h]
  rfl

-- Keys as the program builds them: non-empty, no whitespace, no '=' ---------

/-- Every update key the program constructs (`createLabels`,
    `editFormLabels`) is non-empty and contains neither whitespace nor
    `'='`. -/
def SimpleKey (k : GoStr) : Prop := k ≠ [] ∧ ∀ c ∈ k, isWhite c = false ∧ c ≠ '='

instance (k : GoStr) : Decidable (SimpleKey k) :=
  inferInstanceAs (Decidable (k ≠ [] ∧ ∀ c ∈ k, isWhite c = false ∧ c ≠ '='))

theorem dropWhile_append_stop (q : Char → Bool) (xs : GoStr) (d : Char)
    (zs : GoStr) (hd : q d = false) :
    (xs ++ d :: zs).dropWhile q = xs.dropWhile q ++ d :: zs := by
  induction xs with
  | nil => simp [List.dropWhile_cons, hd]
  | cons a xs' ih =>
    by_cases ha : q a
    · simp [List.dropWhile_cons, ha, ih]
    · simp [List.dropWhile_cons, ha]

theorem trimRightWhite_decomp (p : GoStr) (d : Char) (t : GoStr)
    (hd : isWhite d = false) :
    trimRightWhite (p ++ d :: t) = p ++ d :: trimRightWhite t := by
  unfold trimRightWhite
  have h1 : (p ++ d :: t).reverse = t.reverse ++ d :: p.reverse := by
    simp
  rw [h1, dropWhile_append_stop isWhite t.reverse d p.reverse hd]
  simp

theorem goTrimSpace_declLine (k v : GoStr) (hk : SimpleKey k) :
    goTrimSpace (declLine k v) = (k ++ [' ']) ++ '=' :: trimRightWhite (' ' :: v) := by
  rcases hk with ⟨hne, hch⟩
  have hshape : declLine k v = (k ++ [' ']) ++ '=' :: (' ' :: v) := by
    simp [declLine, gs]
  rw [hshape]
  unfold goTrimSpace
  have hdrop : ((k ++ [' ']) ++ '=' :: (' ' :: v)).dropWhile isWhite =
      (k ++ [' ']) ++ '=' :: (' ' :: v) := by
    rcases k with _ | ⟨c0, k'⟩
    · exact absurd rfl hne
    · have := (hch c0 (List.mem_cons_self _ _)).1
      simp [List.dropWhile_cons, this]
  rw [hdrop, trimRightWhite_decomp (k ++ [' ']) '=' (' ' :: v) (by decide)]

theorem lineMatches_true_iff (k l : GoStr) :
    lineMatches k l = true ↔
      (k ++ [' ']) <+: goTrimSpace l ∨ (k ++ ['=']) <+: goTrimSpace l := by
  simp [lineMatches, goHasPfx]

theorem simple_pfx_eq_aux (k k2 : GoStr) (c c2 : Char) (s : GoStr)
    (hk2 : SimpleKey k2) (hc : c = ' ' ∨ c = '=')
    (h1 : (k ++ [c]) <+: s) (h2 : (k2 ++ [c2]) <+: s)
    (hlen : k.length ≤ k2.length) : k = k2 := by
  have hp : (k ++ [c]) <+: (k2 ++ [c2]) :=
    List.prefix_of_prefix_length_le h1 h2 (by simp [hlen])
  rcases Nat.lt_or_ge k.length k2.length with hlt | hge
  · have hpk2 : (k ++ [c]) <+: k2 :=
      List.prefix_of_prefix_length_le hp (List.prefix_append k2 [c2])
        (by simp; omega)
    have hcmem : c ∈ k2 := hpk2.subset (List.mem_append_right k (List.mem_singleton.mpr rfl))
    rcases hk2.2 c hcmem with ⟨hw, hne⟩
    rcases hc with rfl | rfl
    · exact absurd hw (by decide)
    · exact absurd rfl hne
  · have heqlen : k.length = k2.length := Nat.le_antisymm hlen hge
    have heq : k ++ [c] = k2 ++ [c2] := hp.eq_of_length (by simp [heqlen])
    exact (List.append_inj heq heqlen).1

theorem simple_pfx_eq (k k2 : GoStr) (c c2 : Char) (s : GoStr)
    (hk : SimpleKey k) (hk2 : SimpleKey k2)
    (hc : c = ' ' ∨ c = '=') (hc2 : c2 = ' ' ∨ c2 = '=')
    (h1 : (k ++ [c]) <+: s) (h2 : (k2 ++ [c2]) <+: s) : k = k2 := by
  rcases Nat.le_total k.length k2.length with hle | hle
  · exact simple_pfx_eq_aux k k2 c c2 s hk2 hc h1 h2 hle
  · exact (simple_pfx_eq_aux k2 k c2 c s hk hc2 h2 h1 hle).symm

theorem lineMatches_declLine_self (k v : GoStr) (hk : SimpleKey k) :
    lineMatches k (declLine k v) = true := by
  rw [lineMatches_true_iff]
  left
  rw [goTrimSpace_declLine k v hk]
  exact ⟨'=' :: trimRightWhite (' ' :: v), rfl⟩

theorem lineMatches_declLine_eq (k k2 v : GoStr) (hk : SimpleKey k)
    (hk2 : SimpleKey k2) (h : lineMatches k2 (declLine k v) = true) : k2 = k := by
  have hself : (k ++ [' ']) <+: goTrimSpace (declLine k v) := by
    rw [goTrimSpace_declLine k v hk]
    exact ⟨'=' :: trimRightWhite (' ' :: v), rfl⟩
  rcases (lineMatches_true_iff k2 (declLine k v)).mp h with h2 | h2
  · exact simple_pfx_eq k2 k ' ' ' ' _ hk2 hk (Or.inl rfl) (Or.inl rfl) h2 hself
  · exact simple_pfx_eq k2 k '=' ' ' _ hk2 hk (Or.inr rfl) (Or.inl rfl) h2 hself

theorem lineMatches_unique (k k2 l : GoStr) (hk : SimpleKey k) (hk2 : SimpleKey k2)
    (h1 : lineMatches k l = true) (h2 : lineMatches k2 l = true) : k = k2 := by
  rcases (lineMatches_true_iff k l).mp h1 with ha | ha <;>
    rcases (lineMatches_true_iff k2 l).mp h2 with hb | hb
  · exact simple_pfx_eq k k2 ' ' ' ' _ hk hk2 (Or.inl rfl) (Or.inl rfl) ha hb
  · exact simple_pfx_eq k k2 ' ' '=' _ hk hk2 (Or.inl rfl) (Or.inr rfl) ha hb
  · exact simple_pfx_eq k k2 '=' ' ' _ hk hk2 (Or.inr rfl) (Or.inl rfl) ha hb
  · exact simple_pfx_eq k k2 '=' '=' _ hk hk2 (Or.inr rfl) (Or.inr rfl) ha hb

theorem patchLine_idem (updates : List (GoStr × GoStr))
    (hs : ∀ kv ∈ updates, SimpleKey kv.1) (line : GoStr) :
    patchLine updates (patchLine updates line) = patchLine updates line := by
  by_cases hm : ∃ kv ∈ updates, lineMatches kv.1 line = true
  · rcases patchFold_exists_decl line updates hm line with ⟨⟨k, v⟩, hmem, hkmatch, heq0⟩
    have heq : patchLine updates line = declLine k v := heq0
    have hkS : SimpleKey k := hs (k, v) hmem
    have hequiv : ∀ kv' ∈ updates,
        lineMatches kv'.1 (declLine k v) = lineMatches kv'.1 line := by
      intro kv' hmem'
      have hS' : SimpleKey kv'.1 := hs kv' hmem'
      by_cases he : kv'.1 = k
      · rw [he, lineMatches_declLine_self k v hkS, hkmatch]
      · have hd : lineMatches kv'.1 (declLine k v) = false := by
          by_contra hb
          exact he (lineMatches_declLine_eq k kv'.1 v hkS hS' (Bool.of_not_eq_false hb))
        have hl : lineMatches kv'.1 line = false := by
          by_contra hb
          exact he (lineMatches_unique kv'.1 k line hS' hkS (Bool.of_not_eq_false hb) hkmatch)
        rw [hd, hl]
    calc patchLine updates (patchLine updates line)
        = patchLine updates (declLine k v) := by rw [heq]
      _ = updates.foldl (patchLineStep (declLine k v)) (declLine k v) := rfl
      _ = updates.foldl (patchLineStep line) (declLine k v) :=
          patchFold_target_swap _ _ updates hequiv _
      _ = updates.foldl (patchLineStep line) line :=
          patchFold_init_irrel line updates hm _ _
      _ = patchLine updates line := rfl
  · have hall : ∀ kv ∈ updates, lineMatches kv.1 line = false := by
      intro kv hkv
      by_contra hb
      exact hm ⟨kv, hkv, Bool.of_not_eq_false hb⟩
    have h1 : patchLine updates line = line := patchFold_const line line updates hall
    rw [h1]
    exact h1

theorem patchLine_no_newline (updates : List (GoStr × GoStr))
    (hs : ∀ kv ∈ updates, SimpleKey kv.1)
    (hv : ∀ kv ∈ updates, ('\n' : Char) ∉ kv.2) (line : GoStr)
    (hl : ('\n' : Char) ∉ line) : ('\n' : Char) ∉ patchLine updates line := by
  by_cases hm : ∃ kv ∈ updates, lineMatches kv.1 line = true
  · rcases patchFold_exists_decl line updates hm line with ⟨⟨k, v⟩, hmem, _, heq⟩
    rw [show patchLine updates line =
        updates.foldl (patchLineStep line) line from rfl, heq]
    intro hmemn
    simp only [declLine, gs, List.append_assoc, List.mem_append] at hmemn
    rcases hmemn with hmemn | hmemn | hmemn
    · exact absurd ((hs (k, v) hmem).2 '\n' hmemn).1 (by decide)
    · simp at hmemn
    · exact hv (k, v) hmem hmemn
  · have hall : ∀ kv ∈ updates, lineMatches kv.1 line = false := by
      intro kv hkv
      by_contra hb
      exact hm ⟨kv, hkv, Bool.of_not_eq_false hb⟩
    rw [show patchLine updates line =
        updates.foldl (patchLineStep line) line from rfl,
      patchFold_const line line updates hall]
    exact hl

theorem saveTfvarsText_idem (input : GoStr) (updates : List (GoStr × GoStr))
    (hs : ∀ kv ∈ updates, SimpleKey kv.1)
    (hv : ∀ kv ∈ updates, ('\n' : Char) ∉ kv.2) :
    saveTfvarsText (saveTfvarsText input updates) updates =
      saveTfvarsText input updates := by
  unfold saveTfvarsText
  have hlsne : goSplitChar '\n' input ≠ [] := goSplitChar_ne_nil _ _
  have hmem : ∀ l ∈ goSplitChar '\n' input, ('\n' : Char) ∉ l :=
    mem_goSplitChar_not_mem _ _
  have hmap : ∀ x ∈ (goSplitChar '\n' input).map (patchLine updates),
      ('\n' : Char) ∉ x := by
    intro x hx
    rcases List.mem_map.mp hx with ⟨l, hl, rfl⟩
    exact patchLine_no_newline updates hs hv l (hmem l hl)
  have hmapne : (goSplitChar '\n' input).map (patchLine updates) ≠ [] := by
    simp [hlsne]
  rw [goSplitChar_goJoin '\n' _ hmapne hmap, List.map_map]
  congr 1
  apply List.map_congr_left
  intro l _
  exact patchLine_idem updates hs l

-- Lifecycle state record ----------------------------------------------------

inductive LifecycleState
  | UNKNOWN
  | READY
  | INITIALIZED
  | DEPLOYED
deriving DecidableEq

def stateRank : LifecycleState → Nat
  | LifecycleState.UNKNOWN => 0
  | LifecycleState.READY => 1
  | LifecycleState.INITIALIZED => 2
  | LifecycleState.DEPLOYED => 3

/-- The `setDeploymentState` calls of the create-submit (Enter) sequence in
    `updateCreateForm`, in execution order.  `preOk` records that the
    existence check, template copy, tfvars write and `s3.tf` write all
    succeeded; `initOk` / `applyOk` record the success of `terraform init` /
    `terraform apply`.  Every failure returns immediately, so later writes
    are dropped. -/
def createSubmitStateWrites (preOk initOk applyOk : Bool) : List LifecycleState :=
  if preOk then
    LifecycleState.READY ::
      (if initOk then
        LifecycleState.INITIALIZED ::
          (if applyOk then [LifecycleState.DEPLOYED] else [])
      else [])
  else []

/-- The `setDeploymentState` calls of the edit-form apply ([A]) sequence in
    `updateEditForm`: INITIALIZED after a successful `terraform init`,
    DEPLOYED after a successful `terraform apply`; failures return
    immediately. -/
def editApplyStateWrites (initOk applyOk : Bool) : List LifecycleState :=
  if initOk then
    LifecycleState.INITIALIZED ::
      (if applyOk then [LifecycleState.DEPLOYED] else [])
  else []

/-- Successive ranks never decrease along a write sequence. -/
def ranksChain : LifecycleState → List LifecycleState → Bool
  | _, [] => true
  | prev, s :: rest => decide (stateRank prev ≤ stateRank s) && ranksChain s rest

/-- Monotone progress of the persisted state record: starting from `s0`,
    every successive write moves the rank forward (never regresses). -/
def monotoneFrom (s0 : LifecycleState) (writes : List LifecycleState) : Prop :=
  ranksChain s0 writes = true

instance (s0 : LifecycleState) (writes : List LifecycleState) :
    Decidable (monotoneFrom s0 writes) :=
  inferInstanceAs (Decidable (ranksChain s0 writes = true))

/-- The state recorded on disk after a write sequence that started at `s0`. -/
def lastState (s0 : LifecycleState) (writes : List LifecycleState) : LifecycleState :=
  writes.getLastD s0

-- Presets and startup -------------------------------------------------------

inductive PresetScalar
  | pstr (s : GoStr)
  | pint (n : Int)
deriving DecidableEq

/-- A dynamic YAML value as consumed by the `switch v := val.(type)`
    statements: a string, an int, a list (of scalars each rendered with
    `%v`), or any other value abstracted by its `%v` rendering. -/
inductive DynVal
  | dstr (s : GoStr)
  | dint (n : Int)
  | dlist (xs : List PresetScalar)
  | draw (rendered : GoStr)
deriving DecidableEq

def fmtScalarV : PresetScalar → GoStr
  | PresetScalar.pstr s => s
  | PresetScalar.pint n => (toString n).data

/-- The type-directed stringification shared by `initialModel` and
    `applyPresetToForm`: strings verbatim, ints in decimal, lists
    comma-joined, anything else by its rendering. -/
def stringifyPresetValue : DynVal → GoStr
  | DynVal.dstr s => s
  | DynVal.dint n => (toString n).data
  | DynVal.dlist xs => goJoin [','] (xs.map fmtScalarV)
  | DynVal.draw r => r

structure PresetData where
  name : GoStr
  values : List (GoStr × DynVal)
deriving DecidableEq

/-- Go map lookup `Values[label]` (Go map keys are unique; the model keeps
    the first binding). -/
def lookupGo (k : GoStr) : List (GoStr × DynVal) → Option DynVal
  | [] => none
  | kv :: rest => if kv.1 = k then some kv.2 else lookupGo k rest

/-- `applyPresetToForm`: every field whose label is present in the preset's
    value map is overwritten with the stringified preset value; every other
    field keeps its current text. -/
def applyPresetToForm (preset : List (GoStr × DynVal)) :
    List GoStr → List GoStr → List GoStr
  | [], _ => []
  | _ :: _, [] => []
  | label :: ls, v :: vs =>
    (match lookupGo label preset with
     | some dv => stringifyPresetValue dv
     | none => v) :: applyPresetToForm preset ls vs

structure ConfigData where
  repo : GoStr
  appsPath : GoStr
  templatePath : GoStr
  presetsPath : GoStr
  awsProfile : GoStr
  s3Bucket : GoStr
  awsRegion : GoStr
  terraformPath : GoStr
deriving DecidableEq

structure FieldMetaData where
  label : GoStr
  help : GoStr
  readOnly : Bool
  ftype : GoStr
deriving DecidableEq

/-- One directory entry of the presets directory; `parsed` is the result of
    `loadPreset` on it (`none` models a read or YAML error). -/
structure PresetDirEntry where
  entryName : GoStr
  isDir : Bool
  parsed : Option (List (GoStr × DynVal))
deriving DecidableEq

def hasSuffixYaml (s : GoStr) : Bool := List.isSuffixOf (gs ".yaml") s

def trimSuffixYaml (s : GoStr) : GoStr := s.take (s.length - 5)

/-- The body of the `loadPresets` loop for one directory entry: non-`.yaml`
    and directory entries are ignored, and an entry whose preset file fails
    to load is skipped (`continue`). -/
def loadPresetEntry (e : PresetDirEntry) : Option PresetData :=
  if !e.isDir && hasSuffixYaml e.entryName then
    match e.parsed with
    | some vs => some ⟨trimSuffixYaml e.entryName, vs⟩
    | none => none
  else none

/-- `loadPresets`: `none` only when the directory listing itself fails. -/
def loadPresets (dir : Option (List PresetDirEntry)) : Option (List PresetData) :=
  match dir with
  | none => none
  | some entries => some (entries.filterMap loadPresetEntry)

inductive StartupResult
  | aborted (msg : GoStr)
  | running (presets : List PresetData) (fieldMeta : List (GoStr × FieldMetaData))
deriving DecidableEq

def StartupResult.isAborted : StartupResult → Bool
  | StartupResult.aborted _ => true
  | StartupResult.running _ _ => false

/-- The startup sequence of `main`: config load, preset load, empty-preset
    check, field-catalog load; each failure prints a message and exits. -/
def mainStartup (cfg : Option ConfigData)
    (presetsDir : Option (List PresetDirEntry))
    (fieldsFile : Option (List (GoStr × FieldMetaData))) : StartupResult :=
  match cfg with
  | none => StartupResult.aborted (gs "ERROR: could not load config.yaml")
  | some _ =>
    match loadPresets presetsDir with
    | none => StartupResult.aborted (gs "ERROR: could not load presets from presets dir")
    | some presets =>
      if presets.length = 0 then StartupResult.aborted (gs "No presets found in presets dir!")
      else
        match fieldsFile with
        | none => StartupResult.aborted (gs "ERROR: could not load fields.yaml")
        | some fm => StartupResult.running presets fm

-- The async template fetch result handler -----------------------------------

structure CreateFormState where
  createLabels : List GoStr
  createValues : List GoStr
  statusMessage : GoStr
  templatesForCluster : List GoStr
  isFetchingTemplates : Bool
deriving DecidableEq

structure TemplatesFetchedMsg where
  templates : List GoStr
  err : Option GoStr
deriving DecidableEq

/-- The `templatesFetchedMsg` branch of `updateCreateForm`: clear the busy
    flag; on error set the status message and empty the option list; on
    success store the list and set the `vm_template` input to its first
    element, or to `""` when the list is empty. -/
def handleTemplatesFetched (m : CreateFormState) (msg : TemplatesFetchedMsg) :
    CreateFormState :=
  let templateIdx := indexOf (gs "vm_template") m.createLabels
  let m1 := { m with isFetchingTemplates := false }
  match msg.err with
  | some e =>
    { m1 with statusMessage := gs "Could not fetch templates: " ++ e,
              templatesForCluster := [] }
  | none =>
    let m2 := { m1 with templatesForCluster := msg.templates }
    if 0 ≤ templateIdx ∧ msg.templates ≠ [] then
      { m2 with createValues :=
          m2.createValues.set templateIdx.toNat (msg.templates.headD []) }
    else if 0 ≤ templateIdx then
      { m2 with createValues := m2.createValues.set templateIdx.toNat [] }
    else m2

-- Support lemmas for the cycle operation ------------------------------------

theorem findIdx_self_of_nodup (options : List GoStr) (hnd : options.Nodup) :
    ∀ i, i < options.length →
      options.findIdx? (fun opt => opt = options.getD i []) = some i := by
  induction options with
  | nil => intro i hi; simp at hi
  | cons a rest ih =>
    intro i hi
    cases i with
    | zero => simp
    | succ j =>
      have hj : j < rest.length := by simpa using hi
      have hmem : rest.getD j [] ∈ rest := by
        rw [List.getD_eq_getElem?_getD, List.getElem?_eq_getElem hj]
        exact List.getElem_mem hj
      have hnota : a ∉ rest := (List.nodup_cons.mp hnd).1
      rw [show (a :: rest).getD (j + 1) [] = rest.getD j [] from rfl]
      rw [List.findIdx?_cons,
        if_neg (by simp only [decide_eq_true_eq]; exact fun hh => hnota (hh ▸ hmem))]
      rw [List.findIdx?_succ, ih (List.nodup_cons.mp hnd).2 j hj]
      rfl

theorem cycleOption_found (options : List GoStr) (hnd : options.Nodup)
    (i : Nat) (hi : i < options.length) (dir : Int) :
    cycleOption (options.getD i []) options dir =
      options.getD (((i : Int) + dir + options.length).tmod options.length).toNat [] := by
  unfold cycleOption
  rw [findIdx_self_of_nodup options hnd i hi]

theorem cycleOption_plus_one (options : List GoStr) (hnd : options.Nodup)
    (i : Nat) (hi : i < options.length) :
    cycleOption (options.getD i []) options 1 =
      options.getD ((i + 1) % options.length) [] := by
  rw [cycleOption_found options hnd i hi 1]
  congr 1
  have h1 : (i : Int) + 1 + options.length = ((i + 1 + options.length : Nat) : Int) := by
    push_cast
    ring
  rw [h1, show ((options.length : Nat) : Int) = ((options.length : Nat) : Int) from rfl,
    ← Int.ofNat_tmod, Int.toNat_ofNat, Nat.add_mod_right]

theorem cycleOption_minus_one (options : List GoStr) (hnd : options.Nodup)
    (i : Nat) (hi : i < options.length) :
    cycleOption (options.getD i []) options (-1) =
      options.getD ((i + options.length - 1) % options.length) [] := by
  rw [cycleOption_found options hnd i hi (-1)]
  congr 1
  have h1 : (i : Int) + (-1) + options.length = ((i + options.length - 1 : Nat) : Int) := by
    have hlen : 1 ≤ i + options.length := by omega
    omega
  rw [h1, ← Int.ofNat_tmod, Int.toNat_ofNat]

theorem cycleOption_iterate (options : List GoStr) (hnd : options.Nodup)
    (i : Nat) (hi : i < options.length) (k : Nat) :
    (fun v => cycleOption v options 1)^[k] (options.getD i []) =
      options.getD ((i + k) % options.length) [] := by
  induction k generalizing i with
  | zero =>
    simp [Nat.mod_eq_of_lt hi]
  | succ j ihk =>
    rw [Function.iterate_succ_apply, cycleOption_plus_one options hnd i hi]
    have hlt : (i + 1) % options.length < options.length :=
      Nat.mod_lt _ (by omega)
    rw [ihk ((i + 1) % options.length) hlt, Nat.mod_add_mod,
      show i + 1 + j = i + (j + 1) from by omega]

theorem cycleOption_not_found (options : List GoStr) (current : GoStr)
    (hnf : current ∉ options) (dir : Int) :
    cycleOption current options dir = options.headD [] := by
  unfold cycleOption
  have h : options.findIdx? (fun opt => opt = current) = none := by
    rw [List.findIdx?_eq_none_iff]
    intro x hx
    simp only [decide_eq_false_iff_not]
    exact fun hh => hnf (hh ▸ hx)
  rw [h]

-- Support lemmas for the focus arithmetic -----------------------------------

theorem applyFocusOps_lt (n : Nat) (hn : 1 ≤ n) (ops : List FocusOp) :
    ∀ i, i < n → applyFocusOps n ops i < n := by
  induction ops with
  | nil => intro i hi; exact hi
  | cons op rest ih =>
    intro i hi
    have hstep : applyFocusOp n i op < n := by
      cases op <;> exact Nat.mod_lt _ (by omega)
    exact ih (applyFocusOp n i op) hstep

theorem applyFocusOps_replicate_next (n : Nat) (hn : 1 ≤ n) (k : Nat) :
    ∀ i, i < n → applyFocusOps n (List.replicate k FocusOp.next) i = (i + k) % n := by
  induction k with
  | zero =>
    intro i hi
    simp [applyFocusOps, Nat.mod_eq_of_lt hi]
  | succ j ih =>
    intro i hi
    rw [List.replicate_succ]
    have hstep : (i + 1) % n < n := Nat.mod_lt _ (by omega)
    have h1 : applyFocusOps n (FocusOp.next :: List.replicate j FocusOp.next) i =
        applyFocusOps n (List.replicate j FocusOp.next) ((i + 1) % n) := rfl
    rw [h1, ih ((i + 1) % n) hstep, Nat.mod_add_mod,
      show i + 1 + j = i + (j + 1) from by omega]

-- C9 -------------------------------------------------------------------------

/-- C9: for a form with `n ≥ 1` fields and any sequence of focus-next /
    focus-previous operations of the create and edit forms, the focus index
    stays inside `[0, n)`; and `n` consecutive focus-next operations return
    the focus to its starting value. -/
theorem claim_c9 (n : Nat) (ops : List FocusOp) (i : Nat)
    (hn : 1 ≤ n) (hi : i < n) :
    applyFocusOps n ops i < n ∧
      applyFocusOps n (List.replicate n FocusOp.next) i = i := by
  refine ⟨applyFocusOps_lt n hn ops i hi, ?_⟩
  rw [applyFocusOps_replicate_next n hn n i hi, Nat.add_mod_right,
    Nat.mod_eq_of_lt hi]

/-- C9 witness at the create form's 13 fields. -/
theorem claim_c9_witness :
    applyFocusOps 13 [FocusOp.next, FocusOp.prev, FocusOp.prev] 0 < 13 ∧
      applyFocusOps 13 (List.replicate 13 FocusOp.next) 0 = 0 :=
  claim_c9 13 [FocusOp.next, FocusOp.prev, FocusOp.prev] 0 (by decide) (by decide)

-- C10 ------------------------------------------------------------------------

/-- C10: the last-action column takes the first 16 characters of a non-empty
    state timestamp; this is in range exactly when the timestamp has at least
    16 characters, which holds for every RFC3339 timestamp written by
    `setDeploymentState` (length 20); a non-empty shorter timestamp (e.g.
    `"2024"`) makes the slice out of range — a panic, not a degraded row. -/
theorem claim_c10 (ts : GoStr) (t : GoUTCTime) :
    (16 ≤ ts.length → listDeploymentsLastAction ts = some (ts.take 16)) ∧
    (formatRFC3339UTC t).length = 20 ∧
    listDeploymentsLastAction (formatRFC3339UTC t) =
      some ((formatRFC3339UTC t).take 16) ∧
    listDeploymentsLastAction (gs "2024") = none := by
  have hlen : (formatRFC3339UTC t).length = 20 := by
    simp [formatRFC3339UTC, pad4, pad2]
  refine ⟨?_, hlen, ?_, by decide⟩
  · intro h16
    have hne : ts ≠ [] := by
      intro hh
      rw [hh] at h16
      simp at h16
    unfold listDeploymentsLastAction goStringSlice
    rw [if_neg hne, if_pos h16]
  · have hne : formatRFC3339UTC t ≠ [] := by
      intro hh
      rw [hh] at hlen
      simp at hlen
    unfold listDeploymentsLastAction goStringSlice
    rw [if_neg hne, if_pos (by omega)]

/-- C10 witness: a concrete RFC3339 timestamp is sliced in range; `"2024"`
    panics. -/
theorem claim_c10_witness :
    listDeploymentsLastAction (gs "2026-10-11T08:30:00Z") =
      some ((gs "2026-10-11T08:30:00Z").take 16) ∧
    listDeploymentsLastAction (gs "2024") = none :=
  ⟨(claim_c10 (gs "2026-10-11T08:30:00Z") ⟨2026, 10, 11, 8, 30, 0⟩).1 (by decide),
   (claim_c10 (gs "") ⟨0, 0, 0, 0, 0, 0⟩).2.2.2⟩

-- C3 -------------------------------------------------------------------------

/-- C3 counterexample: encoding the empty list value (empty string) through
    the `vm_disk_size` loop yields `[""]` — a bracket pair containing one
    empty quoted string — and not the claimed literal `[]`. -/
theorem claim_c3_counterexample :
    encodeDiskSizeValue (gs "") = gs "[\"\"]" ∧
    encodeDiskSizeValue (gs "") ≠ gs "[]" :=
  ⟨by decide, by decide⟩

/-- C3 (amended): encoding the empty string produces `[""]` (a bracket pair
    containing one empty quoted string), not `[]` and not an error, because
    Go's `strings.Split("", ",")` yields one empty element; decoding `[]`
    yields the empty list; decoding the encoding of the empty string also
    yields the empty string, and `100G` round-trips. -/
theorem claim_c3_amended :
    encodeDiskSizeValue (gs "") = gs "[\"\"]" ∧
    decodeEditValue (gs "[]") = gs "" ∧
    decodeEditValue (encodeDiskSizeValue (gs "")) = gs "" ∧
    decodeEditValue (encodeDiskSizeValue (gs "100G")) = gs "100G" :=
  ⟨by decide, by decide, by decide, by decide⟩

-- C4 -------------------------------------------------------------------------

/-- C4 counterexample: for the out-of-catalog value `"missing"` and
    direction +1 over the zone options, the source's `cycleOption` returns
    option 0 itself (`"standard"`) without applying the direction, while the
    claim — index defaulting to 0, then move by +1 modulo N — prescribes
    option 1 (`"admin"`). -/
theorem claim_c4_counterexample :
    cycleOption (gs "missing") zoneOptions 1 = gs "standard" ∧
    cycleOptionClaim (gs "missing") zoneOptions 1 = gs "admin" ∧
    cycleOption (gs "missing") zoneOptions 1 ≠
      cycleOptionClaim (gs "missing") zoneOptions 1 :=
  ⟨by decide, by decide, by decide⟩

/-- C4 (amended): over a duplicate-free non-empty option list, a value not
    in the list cycles to option 0 itself (the direction is not applied); a
    value at index `i` cycles by ±1 modulo N; cycling +1 N times returns to
    the original value; cycling -1 from option 0 yields option N-1. -/
theorem claim_c4_amended (options : List GoStr) (hnd : options.Nodup)
    (hne : 1 ≤ options.length) :
    (∀ current dir, current ∉ options →
      cycleOption current options dir = options.headD []) ∧
    (∀ i, i < options.length →
      cycleOption (options.getD i []) options 1 =
        options.getD ((i + 1) % options.length) []) ∧
    (∀ i, i < options.length →
      cycleOption (options.getD i []) options (-1) =
        options.getD ((i + options.length - 1) % options.length) []) ∧
    (∀ i, i < options.length →
      (fun v => cycleOption v options 1)^[options.length] (options.getD i []) =
        options.getD i []) ∧
    cycleOption (options.getD 0 []) options (-1) =
      options.getD (options.length - 1) [] := by
  refine ⟨fun current dir h => cycleOption_not_found options current h dir,
    fun i hi => cycleOption_plus_one options hnd i hi,
    fun i hi => cycleOption_minus_one options hnd i hi,
    fun i hi => ?_, ?_⟩
  · rw [cycleOption_iterate options hnd i hi options.length, Nat.add_mod_right,
      Nat.mod_eq_of_lt hi]
  · rw [cycleOption_minus_one options hnd 0 (by omega), Nat.zero_add,
      Nat.mod_eq_of_lt (by omega)]

/-- C4 witness over the zone option list. -/
theorem claim_c4_witness :
    cycleOption (gs "xyz") zoneOptions 1 = zoneOptions.headD [] ∧
    (fun v => cycleOption v zoneOptions 1)^[zoneOptions.length]
      (zoneOptions.getD 1 []) = zoneOptions.getD 1 [] ∧
    cycleOption (zoneOptions.getD 0 []) zoneOptions (-1) =
      zoneOptions.getD (zoneOptions.length - 1) [] := by
  have h := claim_c4_amended zoneOptions (by decide) (by decide)
  exact ⟨h.1 (gs "xyz") 1 (by decide), h.2.2.2.1 1 (by decide), h.2.2.2.2⟩

-- C1 -------------------------------------------------------------------------

/-- C1 counterexample: on a DEPLOYED deployment, the edit-form apply
    sequence with a successful init and a failed apply writes INITIALIZED:
    the persisted state regresses from DEPLOYED, so the write sequence is not
    monotone, contradicting the claim that every write moves the state only
    forward. -/
theorem claim_c1_counterexample :
    ¬ monotoneFrom LifecycleState.DEPLOYED (editApplyStateWrites true false) ∧
    lastState LifecycleState.DEPLOYED (editApplyStateWrites true false) =
      LifecycleState.INITIALIZED ∧
    stateRank LifecycleState.INITIALIZED < stateRank LifecycleState.DEPLOYED :=
  ⟨by decide, by decide, by decide⟩

/-- C1 (amended): the create-submit sequence starts from UNKNOWN (a fresh
    deployment) and every write moves the state only forward along
    UNKNOWN to READY to INITIALIZED to DEPLOYED; any failure stops the
    sequence, so a failed apply after a successful init leaves INITIALIZED;
    a failed init writes nothing in the edit-apply sequence; the edit-apply
    sequence is forward-moving whenever the starting state is at most
    INITIALIZED, but (per the counterexample) regresses a DEPLOYED
    deployment. -/
theorem claim_c1_amended (preOk initOk applyOk : Bool) (s0 : LifecycleState)
    (hs0 : stateRank s0 ≤ stateRank LifecycleState.INITIALIZED) :
    monotoneFrom LifecycleState.UNKNOWN
      (createSubmitStateWrites preOk initOk applyOk) ∧
    lastState LifecycleState.UNKNOWN (createSubmitStateWrites true true false) =
      LifecycleState.INITIALIZED ∧
    editApplyStateWrites false applyOk = [] ∧
    monotoneFrom s0 (editApplyStateWrites initOk applyOk) ∧
    lastState s0 (editApplyStateWrites true false) = LifecycleState.INITIALIZED := by
  refine ⟨?_, by decide, by cases applyOk <;> decide, ?_, by cases s0 <;> decide⟩
  · cases preOk <;> cases initOk <;> cases applyOk <;> decide
  · cases initOk <;> cases applyOk <;> cases s0 <;> revert hs0 <;> decide

/-- C1 witness: concrete monotone runs of both sequences. -/
theorem claim_c1_witness :
    monotoneFrom LifecycleState.UNKNOWN (createSubmitStateWrites true true true) ∧
    monotoneFrom LifecycleState.READY (editApplyStateWrites true false) :=
  ⟨(claim_c1_amended true true true LifecycleState.READY (by decide)).1,
   (claim_c1_amended true true false LifecycleState.READY (by decide)).2.2.2.1⟩

-- C2 -------------------------------------------------------------------------

/-- C2 counterexample: an error result (`vault approle credentials not
    set`) leaves the `vm_template` input holding its stale value
    `"stale-template"`; the handler does not clear it to `""` as the claim
    states. -/
theorem claim_c2_counterexample :
    (handleTemplatesFetched
      ⟨[gs "cluster", gs "vm_template"], [gs "cl10400", gs "stale-template"],
        gs "", [gs "stale-template"], true⟩
      ⟨[], some (gs "vault approle credentials not set")⟩).createValues =
      [gs "cl10400", gs "stale-template"] ∧
    (gs "stale-template" : GoStr) ≠ gs "" :=
  ⟨by decide, by decide⟩

/-- C2 (amended): on an error result the handler sets the non-empty status
    message `"Could not fetch templates: " + err`, empties the option list
    and clears the busy flag, but leaves every input value — including the
    dependent `vm_template` field — unchanged, possibly stale; the
    `vm_template` value is cleared to `""` only on a successful result with
    an empty template list, and set to the first template on a successful
    non-empty result; the handler is a total function, so the loop does not
    crash. -/
theorem claim_c2_amended (m : CreateFormState) (msg : TemplatesFetchedMsg) :
    (∀ e, msg.err = some e →
      (handleTemplatesFetched m msg).statusMessage =
        gs "Could not fetch templates: " ++ e ∧
      (handleTemplatesFetched m msg).statusMessage ≠ [] ∧
      (handleTemplatesFetched m msg).templatesForCluster = [] ∧
      (handleTemplatesFetched m msg).createValues = m.createValues ∧
      (handleTemplatesFetched m msg).isFetchingTemplates = false) ∧
    (msg.err = none → msg.templates = [] →
      0 ≤ indexOf (gs "vm_template") m.createLabels →
      (handleTemplatesFetched m msg).createValues =
        m.createValues.set (indexOf (gs "vm_template") m.createLabels).toNat []) ∧
    (msg.err = none → msg.templates ≠ [] →
      0 ≤ indexOf (gs "vm_template") m.createLabels →
      (handleTemplatesFetched m msg).createValues =
        m.createValues.set (indexOf (gs "vm_template") m.createLabels).toNat
          (msg.templates.headD [])) := by
  refine ⟨?_, ?_, ?_⟩
  · intro e herr
    refine ⟨by simp [handleTemplatesFetched, herr], ?_,
      by simp [handleTemplatesFetched, herr],
      by simp [handleTemplatesFetched, herr],
      by simp [handleTemplatesFetched, herr]⟩
    have h1 : (handleTemplatesFetched m msg).statusMessage =
        gs "Could not fetch templates: " ++ e := by
      simp [handleTemplatesFetched, herr]
    rw [h1]
    exact List.append_ne_nil_of_left_ne_nil (by decide) e
  · intro herr htpl hidx
    simp [handleTemplatesFetched, herr, htpl, hidx]
  · intro herr htpl hidx
    simp [handleTemplatesFetched, herr, htpl, hidx]

/-- C2 witness: a concrete error delivery keeps the stale value, sets the
    message and empties the option list. -/
theorem claim_c2_witness :
    (handleTemplatesFetched
      ⟨[gs "cluster", gs "vm_template"], [gs "cl10400", gs "old"], gs "",
        [gs "old"], true⟩
      ⟨[], some (gs "boom")⟩).statusMessage =
      gs "Could not fetch templates: " ++ gs "boom" ∧
    (handleTemplatesFetched
      ⟨[gs "cluster", gs "vm_template"], [gs "cl10400", gs "old"], gs "",
        [gs "old"], true⟩
      ⟨[], some (gs "boom")⟩).templatesForCluster = [] ∧
    (handleTemplatesFetched
      ⟨[gs "cluster", gs "vm_template"], [gs "cl10400", gs "old"], gs "",
        [gs "old"], true⟩
      ⟨[], some (gs "boom")⟩).createValues = [gs "cl10400", gs "old"] := by
  have h := (claim_c2_amended
    ⟨[gs "cluster", gs "vm_template"], [gs "cl10400", gs "old"], gs "",
      [gs "old"], true⟩
    ⟨[], some (gs "boom")⟩).1 (gs "boom") rfl
  exact ⟨h.1, h.2.2.1, h.2.2.2.1⟩

-- C5 -------------------------------------------------------------------------

/-- C5 counterexample: with one well-formed preset file (`default.yaml`) and
    one malformed preset file (`broken.yaml`, read/parse failure), startup
    does NOT abort: it continues running with the malformed preset silently
    omitted from the preset list. -/
theorem claim_c5_counterexample :
    mainStartup (some ⟨gs "", gs "", gs "", gs "", gs "", gs "", gs "", gs ""⟩)
      (some [⟨gs "default.yaml", false, some [(gs "vm_app", DynVal.dstr (gs "web"))]⟩,
             ⟨gs "broken.yaml", false, none⟩])
      (some []) =
      StartupResult.running
        [⟨gs "default", [(gs "vm_app", DynVal.dstr (gs "web"))]⟩] [] ∧
    (mainStartup (some ⟨gs "", gs "", gs "", gs "", gs "", gs "", gs "", gs ""⟩)
      (some [⟨gs "default.yaml", false, some [(gs "vm_app", DynVal.dstr (gs "web"))]⟩,
             ⟨gs "broken.yaml", false, none⟩])
      (some [])).isAborted = false :=
  ⟨by decide, by decide⟩

theorem loadPresetEntry_bad (bad : PresetDirEntry) (hbad : bad.parsed = none) :
    loadPresetEntry bad = none := by
  unfold loadPresetEntry
  rw [hbad]
  split <;> rfl

/-- C5 (amended): an unreadable presets directory is fatal at startup, and a
    preset list that ends up empty is fatal; but an individual preset file
    that fails to read or parse is silently skipped: startup behaves exactly
    as if that entry were absent, and aborts only when no preset file loads
    at all. -/
theorem claim_c5_amended (cfg : Option ConfigData)
    (fieldsFile : Option (List (GoStr × FieldMetaData)))
    (pre post : List PresetDirEntry) (bad : PresetDirEntry)
    (hbad : bad.parsed = none) :
    (mainStartup cfg none fieldsFile).isAborted = true ∧
    mainStartup cfg (some (pre ++ bad :: post)) fieldsFile =
      mainStartup cfg (some (pre ++ post)) fieldsFile ∧
    (∀ c, mainStartup (some c) (some [bad]) fieldsFile =
      StartupResult.aborted (gs "No presets found in presets dir!")) := by
  refine ⟨by cases cfg <;> rfl, ?_, ?_⟩
  · cases cfg with
    | none => rfl
    | some c =>
      have hload : loadPresets (some (pre ++ bad :: post)) =
          loadPresets (some (pre ++ post)) := by
        simp only [loadPresets, List.filterMap_append, List.filterMap_cons,
          loadPresetEntry_bad bad hbad]
      simp only [mainStartup, hload]
  · intro c
    have hload : loadPresets (some [bad]) = some [] := by
      simp only [loadPresets, List.filterMap_cons, loadPresetEntry_bad bad hbad,
        List.filterMap_nil]
    simp [mainStartup, hload]

/-- C5 witness: a missing presets directory aborts; removing a malformed
    entry does not change the startup outcome; a directory with only a
    malformed preset aborts with the no-presets message. -/
theorem claim_c5_witness :
    (mainStartup (some ⟨gs "", gs "", gs "", gs "", gs "", gs "", gs "", gs ""⟩)
      none (some [])).isAborted = true ∧
    mainStartup (some ⟨gs "", gs "", gs "", gs "", gs "", gs "", gs "", gs ""⟩)
      (some ([⟨gs "default.yaml", false, some []⟩] ++
        ⟨gs "broken.yaml", false, none⟩ :: []))
      (some []) =
      mainStartup (some ⟨gs "", gs "", gs "", gs "", gs "", gs "", gs "", gs ""⟩)
        (some ([⟨gs "default.yaml", false, some []⟩] ++ [])) (some []) ∧
    mainStartup (some ⟨gs "", gs "", gs "", gs "", gs "", gs "", gs "", gs ""⟩)
      (some [⟨gs "broken.yaml", false, none⟩]) (some []) =
      StartupResult.aborted (gs "No presets found in presets dir!") := by
  have h := claim_c5_amended
    (some ⟨gs "", gs "", gs "", gs "", gs "", gs "", gs "", gs ""⟩) (some [])
    [⟨gs "default.yaml", false, some []⟩] [] ⟨gs "broken.yaml", false, none⟩ rfl
  exact ⟨h.1, h.2.1, h.2.2 ⟨gs "", gs "", gs "", gs "", gs "", gs "", gs "", gs ""⟩⟩

-- C8 -------------------------------------------------------------------------

/-- C8: after applying a preset to the create form, every field whose label
    is present in the preset's value map holds exactly the preset's
    type-stringified value (string verbatim, integer in decimal, list
    comma-joined), and every field absent from the preset keeps its current
    value; the code applies no exclusion, so the claim's exclusion-set
    exception is vacuous (the set is empty). -/
theorem claim_c8 (preset : List (GoStr × DynVal)) (labels values : List GoStr)
    (i : Nat) (hlen : values.length = labels.length) (hi : i < labels.length) :
    (∀ dv, lookupGo (labels.getD i []) preset = some dv →
      (applyPresetToForm preset labels values).getD i [] =
        stringifyPresetValue dv) ∧
    (lookupGo (labels.getD i []) preset = none →
      (applyPresetToForm preset labels values).getD i [] = values.getD i []) := by
  induction labels generalizing values i with
  | nil => simp at hi
  | cons label ls ih =>
    cases values with
    | nil => simp at hlen
    | cons v vs =>
      cases i with
      | zero =>
        constructor
        · intro dv hdv
          rw [List.getD_cons_zero] at hdv
          simp only [applyPresetToForm, List.getD_cons_zero, hdv]
        · intro hnone
          rw [List.getD_cons_zero] at hnone
          simp only [applyPresetToForm, List.getD_cons_zero, hnone]
      | succ j =>
        have hlen' : vs.length = ls.length := by simpa using hlen
        have hj : j < ls.length := by simpa using hi
        have hrec := ih vs j hlen' hj
        simpa [applyPresetToForm] using hrec

/-- C8 witness: a concrete preset overwrites the present `vm_memory` field
    with its decimal stringification and leaves the absent `vm_app` field
    unchanged. -/
theorem claim_c8_witness :
    (applyPresetToForm [(gs "vm_memory", DynVal.dint 8192)]
      [gs "vm_app", gs "vm_memory"] [gs "web", gs "4096"]).getD 1 [] =
      stringifyPresetValue (DynVal.dint 8192) ∧
    (applyPresetToForm [(gs "vm_memory", DynVal.dint 8192)]
      [gs "vm_app", gs "vm_memory"] [gs "web", gs "4096"]).getD 0 [] =
      gs "web" :=
  ⟨(claim_c8 [(gs "vm_memory", DynVal.dint 8192)] [gs "vm_app", gs "vm_memory"]
      [gs "web", gs "4096"] 1 (by decide) (by decide)).1 (DynVal.dint 8192)
      (by decide),
   (claim_c8 [(gs "vm_memory", DynVal.dint 8192)] [gs "vm_app", gs "vm_memory"]
      [gs "web", gs "4096"] 0 (by decide) (by decide)).2 (by decide)⟩

-- C6 -------------------------------------------------------------------------

/-- C6 counterexample: with an update value containing a newline, applying
    the patch twice differs from applying it once — the first pass injects a
    `b = 2` line inside a replaced value, and the second pass rewrites it. -/
theorem claim_c6_counterexample :
    saveTfvarsText (gs "a = 0") [(gs "a", gs "1\nb = 2"), (gs "b", gs "9")] =
      gs "a = 1\nb = 2" ∧
    saveTfvarsText (saveTfvarsText (gs "a = 0")
        [(gs "a", gs "1\nb = 2"), (gs "b", gs "9")])
        [(gs "a", gs "1\nb = 2"), (gs "b", gs "9")] =
      gs "a = 1\nb = 2\nb = 9" ∧
    saveTfvarsText (saveTfvarsText (gs "a = 0")
        [(gs "a", gs "1\nb = 2"), (gs "b", gs "9")])
        [(gs "a", gs "1\nb = 2"), (gs "b", gs "9")] ≠
      saveTfvarsText (gs "a = 0") [(gs "a", gs "1\nb = 2"), (gs "b", gs "9")] :=
  ⟨by decide, by decide, by decide⟩

/-- C6 (amended): for update mappings of the kind the program builds — every
    key non-empty and free of whitespace and `'='`, every value free of
    newlines — the patch is idempotent: the once-patched text is a fixed
    point.  Without these restrictions idempotence fails (see the
    counterexample). -/
theorem claim_c6_amended (input : GoStr) (updates : List (GoStr × GoStr))
    (hs : ∀ kv ∈ updates, SimpleKey kv.1)
    (hv : ∀ kv ∈ updates, ('\n' : Char) ∉ kv.2) :
    saveTfvarsText (saveTfvarsText input updates) updates =
      saveTfvarsText input updates :=
  saveTfvarsText_idem input updates hs hv

/-- C6 witness: a realistic tfvars patch is idempotent. -/
theorem claim_c6_witness :
    saveTfvarsText (saveTfvarsText
      (gs "vm_memory = 4096\n# comment\nvm_cpu_cores = 2")
      [(gs "vm_memory", gs "8192"), (gs "vm_cpu_cores", gs "4")])
      [(gs "vm_memory", gs "8192"), (gs "vm_cpu_cores", gs "4")] =
      saveTfvarsText (gs "vm_memory = 4096\n# comment\nvm_cpu_cores = 2")
        [(gs "vm_memory", gs "8192"), (gs "vm_cpu_cores", gs "4")] :=
  claim_c6_amended (gs "vm_memory = 4096\n# comment\nvm_cpu_cores = 2")
    [(gs "vm_memory", gs "8192"), (gs "vm_cpu_cores", gs "4")]
    (by decide) (by decide)

-- C7 -------------------------------------------------------------------------

/-- C7: the patch leaves every line whose trimmed prefix matches no update
    key (key followed by `' '` or `'='`) byte-for-byte unchanged; a line
    matched by some key is rewritten to the `key = value` declaration of a
    matching update pair; an update key matching no line of the input has no
    effect at all (silently dropped); and the output is exactly the
    newline-join of the per-line results, one per input line — nothing is
    appended and no new declaration is introduced. -/
theorem claim_c7 (updates : List (GoStr × GoStr)) (input : GoStr) :
    (∀ line, (∀ kv ∈ updates, lineMatches kv.1 line = false) →
      patchLine updates line = line) ∧
    (∀ line, (∃ kv ∈ updates, lineMatches kv.1 line = true) →
      ∃ kv ∈ updates, lineMatches kv.1 line = true ∧
        patchLine updates line = declLine kv.1 kv.2) ∧
    (∀ pre post k v, (∀ l ∈ goSplitChar '\n' input, lineMatches k l = false) →
      saveTfvarsText input (pre ++ (k, v) :: post) =
        saveTfvarsText input (pre ++ post)) ∧
    ((goSplitChar '\n' input).map (patchLine updates)).length =
      (goSplitChar '\n' input).length ∧
    saveTfvarsText input updates =
      goJoin ['\n'] ((goSplitChar '\n' input).map (patchLine updates)) := by
  refine ⟨?_, ?_, ?_, by simp, rfl⟩
  · exact fun line h => patchFold_const line line updates h
  · exact fun line h => patchFold_exists_decl line updates h line
  · intro pre post k v hnone
    unfold saveTfvarsText
    congr 1
    apply List.map_congr_left
    intro l hl
    exact patchFold_skip l l pre post (k, v) (hnone l hl)

/-- C7 witness: a comment line passes through verbatim; a matching line is
    rewritten to the key's declaration. -/
theorem claim_c7_witness :
    patchLine [(gs "vm_memory", gs "8192")] (gs "# comment") = gs "# comment" ∧
    (∃ kv ∈ [(gs "vm_memory", gs "8192")],
      lineMatches kv.1 (gs "vm_memory = 4096") = true ∧
      patchLine [(gs "vm_memory", gs "8192")] (gs "vm_memory = 4096") =
        declLine kv.1 kv.2) :=
  ⟨(claim_c7 [(gs "vm_memory", gs "8192")] (gs "")).1 (gs "# comment") (by decide),
   (claim_c7 [(gs "vm_memory", gs "8192")] (gs "")).2.1 (gs "vm_memory = 4096")
     (by decide)⟩
